import Mathlib

/-!
# A shallow embedding of `linkanalytics` (src/go/main.go)

The repository is a single-file Go URL-shortening and click-analytics
service.  This development embeds its core — identifier derivation
(`newLink`, via `crypto/sha256` and `encoding/hex`), the on-disk record
store (`Link.save`, `loadLink`, `loadHits`, `gotHit`) and the composite
operations the HTTP handlers perform (`saveHandler`, `goHandler` /
`collectHandler`, `analyticsHandler`) — as pure Lean functions over an
explicit filesystem state, and proves the spec's testable properties
about them.

Conventions:
* Bytes are `Nat`s below 256; machine 32-bit words are `Nat`s reduced
  modulo `2^32` wherever Go's `uint32` arithmetic would overflow.
* The filesystem is an association list from file names to file
  contents (a `String`, standing for the raw bytes of the file).
* Fallible operations return `Except FsErr`; the only failure the
  model can express is `FsErr.notFound` (the `os.ErrNotExist` that
  `os.Open` / `os.OpenFile` produce on a missing file).  Other I/O
  faults (permissions, disk errors) are outside the model.
-/

/-! ## SHA-256 (model of Go `crypto/sha256`, FIPS 180-4) -/

/-- Truncation to a 32-bit word, Go `uint32` arithmetic. -/
def w32 (x : Nat) : Nat := x % 4294967296

/-- 32-bit right rotation (for inputs below `2^32`). -/
def rotr (n x : Nat) : Nat := w32 ((x >>> n) ||| (x <<< (32 - n)))

/-- SHA-256 `Ch(x,y,z) = (x AND y) XOR ((NOT x) AND z)` on 32-bit words. -/
def shaCh (x y z : Nat) : Nat := (x &&& y) ^^^ ((x ^^^ 4294967295) &&& z)

/-- SHA-256 `Maj(x,y,z)` on 32-bit words. -/
def shaMaj (x y z : Nat) : Nat := (x &&& y) ^^^ (x &&& z) ^^^ (y &&& z)

/-- SHA-256 big Σ₀. -/
def bigSigma0 (x : Nat) : Nat := rotr 2 x ^^^ rotr 13 x ^^^ rotr 22 x

/-- SHA-256 big Σ₁. -/
def bigSigma1 (x : Nat) : Nat := rotr 6 x ^^^ rotr 11 x ^^^ rotr 25 x

/-- SHA-256 small σ₀. -/
def smallSigma0 (x : Nat) : Nat := rotr 7 x ^^^ rotr 18 x ^^^ (x >>> 3)

/-- SHA-256 small σ₁. -/
def smallSigma1 (x : Nat) : Nat := rotr 17 x ^^^ rotr 19 x ^^^ (x >>> 10)

/-- The 64 SHA-256 round constants (Go `crypto/sha256`'s `_K`). -/
def shaK : List Nat :=
  [0x428A2F98, 0x71374491, 0xB5C0FBCF, 0xE9B5DBA5,
   0x3956C25B, 0x59F111F1, 0x923F82A4, 0xAB1C5ED5,
   0xD807AA98, 0x12835B01, 0x243185BE, 0x550C7DC3,
   0x72BE5D74, 0x80DEB1FE, 0x9BDC06A7, 0xC19BF174,
   0xE49B69C1, 0xEFBE4786, 0x0FC19DC6, 0x240CA1CC,
   0x2DE92C6F, 0x4A7484AA, 0x5CB0A9DC, 0x76F988DA,
   0x983E5152, 0xA831C66D, 0xB00327C8, 0xBF597FC7,
   0xC6E00BF3, 0xD5A79147, 0x06CA6351, 0x14292967,
   0x27B70A85, 0x2E1B2138, 0x4D2C6DFC, 0x53380D13,
   0x650A7354, 0x766A0ABB, 0x81C2C92E, 0x92722C85,
   0xA2BFE8A1, 0xA81A664B, 0xC24B8B70, 0xC76C51A3,
   0xD192E819, 0xD6990624, 0xF40E3585, 0x106AA070,
   0x19A4C116, 0x1E376C08, 0x2748774C, 0x34B0BCB5,
   0x391C0CB3, 0x4ED8AA4A, 0x5B9CCA4F, 0x682E6FF3,
   0x748F82EE, 0x78A5636F, 0x84C87814, 0x8CC70208,
   0x90BEFFFA, 0xA4506CEB, 0xBEF9A3F7, 0xC67178F2]

/-- The eight 32-bit working variables `a..h` of the SHA-256 compression
function, and the hash state between blocks. -/
structure Hash8 where
  h0 : Nat
  h1 : Nat
  h2 : Nat
  h3 : Nat
  h4 : Nat
  h5 : Nat
  h6 : Nat
  h7 : Nat

/-- SHA-256 initial hash value. -/
def initH : Hash8 :=
  ⟨0x6A09E667, 0xBB67AE85, 0x3C6EF372, 0xA54FF53A,
   0x510E527F, 0x9B05688C, 0x1F83D9AB, 0x5BE0CD19⟩

/-- One SHA-256 compression round with round constant `k` and message
schedule word `w`. -/
def shaRound (k w : Nat) (s : Hash8) : Hash8 :=
  let t1 := w32 (s.h7 + bigSigma1 s.h4 + shaCh s.h4 s.h5 s.h6 + k + w)
  let t2 := w32 (bigSigma0 s.h0 + shaMaj s.h0 s.h1 s.h2)
  ⟨w32 (t1 + t2), s.h0, s.h1, s.h2, w32 (s.h3 + t1), s.h4, s.h5, s.h6⟩

/-- Run the 64 compression rounds, consuming constants and schedule words. -/
def shaRounds : List Nat → List Nat → Hash8 → Hash8
  | k :: ks, w :: ws, s => shaRounds ks ws (shaRound k w s)
  | _, _, s => s

/-- Parse a byte list into big-endian 32-bit words, four bytes per word. -/
def bytesToWords : List Nat → List Nat
  | a :: b :: c :: d :: rest => (((a * 256 + b) * 256 + c) * 256 + d) :: bytesToWords rest
  | _ => []

/-- Extend the 16-word block to the 64-word message schedule:
`w[i] = σ₁(w[i-2]) + w[i-7] + σ₀(w[i-15]) + w[i-16]` (mod `2^32`). -/
def extendSchedule : Nat → List Nat → List Nat
  | 0, w => w
  | n + 1, w =>
    let i := w.length
    extendSchedule n
      (w ++ [w32 (smallSigma1 (w.getD (i - 2) 0) + w.getD (i - 7) 0 +
                  smallSigma0 (w.getD (i - 15) 0) + w.getD (i - 16) 0)])

/-- Componentwise 32-bit addition of hash states. -/
def add8 (x y : Hash8) : Hash8 :=
  ⟨w32 (x.h0 + y.h0), w32 (x.h1 + y.h1), w32 (x.h2 + y.h2), w32 (x.h3 + y.h3),
   w32 (x.h4 + y.h4), w32 (x.h5 + y.h5), w32 (x.h6 + y.h6), w32 (x.h7 + y.h7)⟩

/-- Process one 64-byte block. -/
def processBlock (s : Hash8) (block : List Nat) : Hash8 :=
  add8 s (shaRounds shaK (extendSchedule 48 (bytesToWords block)) s)

/-- Big-endian 8-byte serialization of the 64-bit message bit length. -/
def bytes8BE (x : Nat) : List Nat :=
  [(x >>> 56) % 256, (x >>> 48) % 256, (x >>> 40) % 256, (x >>> 32) % 256,
   (x >>> 24) % 256, (x >>> 16) % 256, (x >>> 8) % 256, x % 256]

/-- Big-endian 4-byte serialization of a 32-bit word (Go
`binary.BigEndian.PutUint32`, each byte truncated with `byte(...)`). -/
def bytes4BE (x : Nat) : List Nat :=
  [(x >>> 24) % 256, (x >>> 16) % 256, (x >>> 8) % 256, x % 256]

/-- SHA-256 padding: append `0x80`, zeros to 56 mod 64, then the
message bit length as a big-endian `uint64`. -/
def padMsg (msg : List Nat) : List Nat :=
  let l := msg.length
  let k := (119 - l % 64) % 64
  msg ++ 0x80 :: (List.replicate k 0 ++ bytes8BE ((8 * l) % 18446744073709551616))

/-- Split a byte list into 64-byte chunks; the first argument is fuel
(any bound at least the number of chunks). -/
def chunksAux : Nat → List Nat → List (List Nat)
  | _, [] => []
  | 0, l => [l]
  | n + 1, l => l.take 64 :: chunksAux n (l.drop 64)

/-- Split a byte list into 64-byte chunks. -/
def chunks64 (l : List Nat) : List (List Nat) := chunksAux l.length l

/-- The final hash state after absorbing a (pre-padded) message. -/
def shaFinal (msg : List Nat) : Hash8 :=
  (chunks64 (padMsg msg)).foldl processBlock initH

/-- Serialize a hash state as the 32 digest bytes (Go `h.Sum(nil)`). -/
def digestBytes (s : Hash8) : List Nat :=
  bytes4BE s.h0 ++ bytes4BE s.h1 ++ bytes4BE s.h2 ++ bytes4BE s.h3 ++
  bytes4BE s.h4 ++ bytes4BE s.h5 ++ bytes4BE s.h6 ++ bytes4BE s.h7

/-- SHA-256 of a byte list: the 32-byte digest. -/
def sha256Bytes (msg : List Nat) : List Nat := digestBytes (shaFinal msg)

/-! ## UTF-8 and lowercase hex (Go `[]byte(s)` and `encoding/hex`) -/

/-- `concatMap f l` is the concatenation of `f` over `l` (kept as an
explicit structural recursion so the kernel can evaluate it). -/
def concatMap (f : α → List β) : List α → List β
  | [] => []
  | a :: as => f a ++ concatMap f as

/-- The UTF-8 encoding of one Unicode scalar value. -/
def utf8EncodeChar (c : Char) : List Nat :=
  let n := c.toNat
  if n < 128 then [n]
  else if n < 2048 then [192 ||| (n >>> 6), 128 ||| (n &&& 63)]
  else if n < 65536 then
    [224 ||| (n >>> 12), 128 ||| ((n >>> 6) &&& 63), 128 ||| (n &&& 63)]
  else
    [240 ||| (n >>> 18), 128 ||| ((n >>> 12) &&& 63),
     128 ||| ((n >>> 6) &&& 63), 128 ||| (n &&& 63)]

/-- The raw bytes of a string: UTF-8, as Go's `[]byte(s)` conversion. -/
def utf8Bytes (s : String) : List Nat := concatMap utf8EncodeChar s.data

/-- The sixteen lowercase hexadecimal digits, in value order (Go
`encoding/hex`'s digit table). -/
def hexChars : List Char := "0123456789abcdef".data

/-- The lowercase hex digit of a value below 16. -/
def hexDigit (n : Nat) : Char := hexChars.getD n '0'

/-- The two lowercase hex digits of one byte (Go `encoding/hex`:
high nibble first). -/
def hexOfByte (b : Nat) : List Char := [hexDigit (b >>> 4), hexDigit (b &&& 15)]

/-- Go `hex.EncodeToString`: each byte as two lowercase hex digits. -/
def hexEncodeToString (bs : List Nat) : String := ⟨concatMap hexOfByte bs⟩

/-- The identifier derivation the spec calls `derive`: the lowercase
hex encoding of the SHA-256 digest of the destination's raw bytes —
exactly what `newLink` computes inline
(`hex.EncodeToString(h.Sum(nil))` after `h.Write([]byte(destination))`). -/
def derive (destination : String) : String :=
  hexEncodeToString (sha256Bytes (utf8Bytes destination))

/-! ## Line scanning (model of `bufio.Scanner` with `bufio.ScanLines`) -/

/-- Drop one trailing carriage return, `bufio`'s `dropCR`. -/
def chompCR (l : List Char) : List Char :=
  if l.getLast? = some '\r' then l.dropLast else l

/-- Split a character list at newlines, exactly as repeated
`bufio.ScanLines` tokenization does before its `dropCR`: each `'\n'`
terminates a token, a final unterminated token is returned as-is, and
an empty remainder yields no token. -/
def rawLines : List Char → List (List Char)
  | [] => []
  | c :: cs =>
    if c = '\n' then [] :: rawLines cs
    else
      match rawLines cs with
      | [] => [[c]]
      | l :: ls => (c :: l) :: ls

/-- The lines a `bufio.Scanner` with `bufio.ScanLines` yields on the
given contents (each token with a trailing `'\r'` stripped). -/
def linesOf (s : String) : List String :=
  (rawLines s.data).map (fun l => String.mk (chompCR l))

/-! ## The filesystem state and the Go file primitives -/

/-- The one failure the model distinguishes: the `os.ErrNotExist`
error that `os.Open` / `os.OpenFile` (without `O_CREATE`) return for a
missing file.  Other I/O faults are outside the model. -/
inductive FsErr where
  | notFound
deriving DecidableEq

/-- The filesystem: an association list from file names to contents. -/
def FS := List (String × String)

/-- Read a file's contents (`os.ReadFile` / `os.Open`), if it exists. -/
def fsLookup : FS → String → Option String
  | [], _ => none
  | (m, c) :: fs, n => if m = n then some c else fsLookup fs n

/-- Write a file, creating it or truncating an existing one
(`os.WriteFile`). -/
def fsWrite : FS → String → String → FS
  | [], n, c => [(n, c)]
  | (m, d) :: fs, n, c => if m = n then (n, c) :: fs else (m, d) :: fsWrite fs n c

/-- Append to an existing file (`os.OpenFile` with
`O_APPEND|O_WRONLY` and no `O_CREATE`): fails with `notFound` when the
file does not exist, otherwise extends its contents. -/
def fsAppend (fs : FS) (n c : String) : Except FsErr FS :=
  match fsLookup fs n with
  | none => .error .notFound
  | some old => .ok (fsWrite fs n (old ++ c))

/-! ## The Go program (src/go/main.go) -/

/-- Go `type Link struct { Destination string; Hash string }`. -/
structure Link where
  Destination : String
  Hash : String

/-- Go `type LinkAnalytics struct { GoTo *Link; Analytics []byte }`
(the raw file bytes held as a string). -/
structure LinkAnalytics where
  GoTo : Link
  Analytics : String

/-- `newLink`: hash the destination's bytes with SHA-256 and hex-encode. -/
def newLink (destination : String) : Link :=
  { Destination := destination, Hash := derive destination }

/-- The storage file name for an identifier: `hash + ".linkanalytics"`,
as every file operation in the source builds it. -/
def fileName (hash : String) : String := hash ++ ".linkanalytics"

/-- `Link.save`: `os.WriteFile(l.Hash + ".linkanalytics",
[]byte(l.Destination + "\n"), 0600)` — creates or truncates. -/
def Link.save (l : Link) (fs : FS) : FS :=
  fsWrite fs (fileName l.Hash) (l.Destination ++ "\n")

/-- `loadLink`: open the file (error if missing), scan the first line
as the destination.  On an empty file the single failed `Scan` leaves
`Text()` empty, hence the `""` default. -/
def loadLink (fs : FS) (hash : String) : Except FsErr Link :=
  match fsLookup fs (fileName hash) with
  | none => .error .notFound
  | some contents => .ok { Destination := (linesOf contents).headD "", Hash := hash }

/-- `loadHits`: `os.ReadFile` of the whole storage file. -/
def loadHits (fs : FS) (hash : String) : Except FsErr String :=
  match fsLookup fs (fileName hash) with
  | none => .error .notFound
  | some hits => .ok hits

/-- The visible text of one hit record (before its newline): the
`log.New(file, "hit: ", log.LstdFlags)` header — the literal `"hit: "`,
the formatted date-time stamp, a space — followed by the logged
user-agent.  The server-generated stamp is passed in as `ts`. -/
def hitEntry (ts ua : String) : String := "hit: " ++ ts ++ " " ++ ua

/-- The full line `logger.Println(ua)` appends: the record text plus
the terminating newline. -/
def hitLine (ts ua : String) : String := hitEntry ts ua ++ "\n"

/-- `gotHit`: open the storage file in append-only mode (no create)
and write one log line.  `ts` is the wall-clock stamp the `log`
package generates. -/
def gotHit (fs : FS) (hash ts ua : String) : Except FsErr FS :=
  fsAppend fs (fileName hash) (hitLine ts ua)

/-! ## The Link Service operations (spec §4.4, as the handlers compose them) -/

/-- `registerDestination` (the core of `saveHandler`): build the Link
from the submitted destination, persist it, return the identifier used
for the redirect.  There is no input validation and `Link.save` never
fails in the model, so the operation is total. -/
def registerDestination (fs : FS) (destination : String) : String × FS :=
  let l := newLink destination
  (l.Hash, l.save fs)

/-- `visit` (the core of `goHandler` and `collectHandler`): load the
Link (error if unknown), append one hit, return the destination for
the redirect. -/
def visit (fs : FS) (hash ts ua : String) : Except FsErr (String × FS) :=
  match loadLink fs hash with
  | .error e => .error e
  | .ok l =>
    match gotHit fs l.Hash ts ua with
    | .error e => .error e
    | .ok fs2 => .ok (l.Destination, fs2)

/-- `getAnalytics` (the core of `analyticsHandler`): load the Link and
the raw hit history. -/
def getAnalytics (fs : FS) (hash : String) : Except FsErr LinkAnalytics :=
  match loadLink fs hash with
  | .error e => .error e
  | .ok l =>
    match loadHits fs hash with
    | .error e => .error e
    | .ok h => .ok ⟨l, h⟩

/-- Sequential visits, one per `(timestamp, user-agent)` pair, aborting
on the first error. -/
def visitMany : FS → String → List (String × String) → Except FsErr FS
  | fs, _, [] => .ok fs
  | fs, hash, p :: ps =>
    match visit fs hash p.1 p.2 with
    | .error e => .error e
    | .ok r => visitMany r.2 hash ps

/-- The hit records of a storage file's contents: every scanned line
after the first (the first line is the destination). -/
def hitRecords (contents : String) : List String := (linesOf contents).tail

/-! ## Basic lemmas: strings, the filesystem, line scanning -/

theorem strExt {s t : String} (h : s.data = t.data) : s = t := by
  cases s; cases t; cases h; rfl

theorem emptyData : ("" : String).data = [] := rfl

theorem nlData : ("\n" : String).data = ['\n'] := rfl

theorem spaceData : (" " : String).data = [' '] := rfl

theorem hitHeadData : ("hit: " : String).data = ['h', 'i', 't', ':', ' '] := rfl

theorem strAppend_assoc (a b c : String) : a ++ b ++ c = a ++ (b ++ c) :=
  strExt (by simp [String.data_append])

theorem strAppend_empty (s : String) : s ++ "" = s :=
  strExt (by simp [String.data_append])

theorem fsLookup_fsWrite_self (fs : FS) (n c : String) :
    fsLookup (fsWrite fs n c) n = some c := by
  induction fs with
  | nil => simp [fsWrite, fsLookup]
  | cons p fs ih =>
    obtain ⟨m, d⟩ := p
    by_cases h : m = n <;> simp [fsWrite, fsLookup, h, ih]

theorem fsLookup_fsWrite_ne (fs : FS) (n c m : String) (h : m ≠ n) :
    fsLookup (fsWrite fs n c) m = fsLookup fs m := by
  induction fs with
  | nil => simp [fsWrite, fsLookup, Ne.symm h]
  | cons p fs ih =>
    obtain ⟨a, b⟩ := p
    by_cases ha : a = n
    · subst ha
      simp [fsWrite, fsLookup, Ne.symm h]
    · by_cases ham : a = m <;> simp [fsWrite, fsLookup, ha, ham, ih, h]

theorem rawLines_ne_nil (cs : List Char) (h : cs ≠ []) : rawLines cs ≠ [] := by
  cases cs with
  | nil => exact (h rfl).elim
  | cons c cs =>
    by_cases hc : c = '\n'
    · simp [rawLines, hc]
    · simp only [rawLines, if_neg hc]
      cases rawLines cs <;> simp

theorem rawLines_append_nl (xs ys : List Char) (h : '\n' ∉ xs) :
    rawLines (xs ++ '\n' :: ys) = xs :: rawLines ys := by
  induction xs with
  | nil => simp [rawLines]
  | cons c cs ih =>
    have hc : c ≠ '\n' := fun e => h (e ▸ List.mem_cons_self c cs)
    have hcs : '\n' ∉ cs := fun m => h (List.mem_cons_of_mem _ m)
    simp only [List.cons_append, rawLines, List.append_eq, if_neg hc, ih hcs]

theorem rawLines_cons (c : Char) (cs : List Char) :
    rawLines (c :: cs) =
      if c = '\n' then [] :: rawLines cs
      else
        match rawLines cs with
        | [] => [[c]]
        | l :: ls => (c :: l) :: ls := rfl

theorem rawLines_append_of_last_nl (xs ys : List Char) (h : xs.getLast? = some '\n') :
    rawLines (xs ++ ys) = rawLines xs ++ rawLines ys := by
  induction xs with
  | nil => simp at h
  | cons c cs ih =>
    cases hcs : cs with
    | nil =>
      subst hcs
      simp only [List.getLast?_singleton, Option.some.injEq] at h
      subst h
      simp [rawLines]
    | cons d ds =>
      rw [hcs] at ih h
      rw [List.getLast?_cons_cons] at h
      obtain ⟨l, ls, e⟩ := List.exists_cons_of_ne_nil (rawLines_ne_nil (d :: ds) (by simp))
      rw [List.cons_append, rawLines_cons, rawLines_cons c (d :: ds), ih h, e]
      by_cases hc : c = '\n' <;> simp [hc]

theorem chompCR_of_ne (l : List Char) (h : l.getLast? ≠ some '\r') : chompCR l = l := by
  simp [chompCR, h]

theorem linesOf_empty : linesOf "" = [] := rfl

theorem data_append_nl_cons (d rest : String) :
    (d ++ "\n" ++ rest).data = d.data ++ '\n' :: rest.data := by
  simp [String.data_append, nlData]

theorem linesOf_cons_chomp (d rest : String) (hd : '\n' ∉ d.data) :
    linesOf (d ++ "\n" ++ rest) = String.mk (chompCR d.data) :: linesOf rest := by
  unfold linesOf
  rw [data_append_nl_cons, rawLines_append_nl _ _ hd, List.map_cons]

theorem linesOf_cons (d rest : String) (hd : '\n' ∉ d.data)
    (hdr : d.data.getLast? ≠ some '\r') :
    linesOf (d ++ "\n" ++ rest) = d :: linesOf rest := by
  rw [linesOf_cons_chomp _ _ hd, chompCR_of_ne _ hdr]

theorem linesOf_single (d : String) (hd : '\n' ∉ d.data)
    (hdr : d.data.getLast? ≠ some '\r') : linesOf (d ++ "\n") = [d] := by
  have : d ++ "\n" = d ++ "\n" ++ "" := (strAppend_empty _).symm
  rw [this, linesOf_cons _ _ hd hdr, linesOf_empty]

theorem linesOf_append_of_last_nl (c rest : String) (h : c.data.getLast? = some '\n') :
    linesOf (c ++ rest) = linesOf c ++ linesOf rest := by
  unfold linesOf
  rw [String.data_append, rawLines_append_of_last_nl _ _ h, List.map_append]

/-! ## Shape facts about hit lines -/

theorem nl_not_mem_hitEntry (ts ua : String) (h1 : '\n' ∉ ts.data) (h2 : '\n' ∉ ua.data) :
    '\n' ∉ (hitEntry ts ua).data := by
  intro hm
  simp only [hitEntry, String.data_append, hitHeadData, spaceData, List.append_assoc,
    List.mem_append, List.mem_cons, List.mem_singleton] at hm
  rcases hm with h | h | h | h
  · simp at h
  · exact h1 h
  · simp at h
  · exact h2 h

theorem hitEntry_data (ts ua : String) :
    (hitEntry ts ua).data = ("hit: ".data ++ ts.data ++ [' ']) ++ ua.data := by
  simp only [hitEntry, String.data_append, spaceData]

theorem hitEntry_last_ne (ts ua : String) (h : ua.data.getLast? ≠ some '\r') :
    (hitEntry ts ua).data.getLast? ≠ some '\r' := by
  rw [hitEntry_data]
  cases hu : ua.data with
  | nil =>
    rw [List.append_nil, List.getLast?_concat]
    simp
  | cons d ds =>
    have hne : ua.data ≠ [] := by rw [hu]; simp
    rw [← hu, List.getLast?_append_of_ne_nil _ hne]
    exact h

theorem hitLine_data (ts ua : String) :
    (hitLine ts ua).data = (hitEntry ts ua).data ++ ['\n'] := by
  simp [hitLine, String.data_append, nlData]

theorem hitLine_last_nl (ts ua : String) :
    (hitLine ts ua).data.getLast? = some '\n' := by
  rw [hitLine_data, List.getLast?_concat]

/-! ## The canonical contents after a run of visits -/

/-- The bytes a sequence of hits appends: one `hitLine` per pair. -/
def hitsConcat : List (String × String) → String
  | [] => ""
  | p :: ps => hitLine p.1 p.2 ++ hitsConcat ps

theorem visitMany_ok (hits : List (String × String)) :
    ∀ (fs : FS) (h c : String), fsLookup fs (fileName h) = some c →
    ∃ fs2, visitMany fs h hits = .ok fs2 ∧
      fsLookup fs2 (fileName h) = some (c ++ hitsConcat hits) ∧
      ∀ n, n ≠ fileName h → fsLookup fs2 n = fsLookup fs n := by
  induction hits with
  | nil =>
    intro fs h c hc
    exact ⟨fs, rfl, by rw [show hitsConcat [] = "" from rfl, strAppend_empty]; exact hc,
      fun _ _ => rfl⟩
  | cons p ps ih =>
    intro fs h c hc
    have hv : visit fs h p.1 p.2 =
        .ok ((linesOf c).headD "", fsWrite fs (fileName h) (c ++ hitLine p.1 p.2)) := by
      simp [visit, loadLink, gotHit, fsAppend, hc]
    obtain ⟨fs2, e1, e2, e3⟩ :=
      ih (fsWrite fs (fileName h) (c ++ hitLine p.1 p.2)) h (c ++ hitLine p.1 p.2)
        (fsLookup_fsWrite_self ..)
    refine ⟨fs2, ?_, ?_, ?_⟩
    · simp only [visitMany, hv, e1]
    · rw [e2, strAppend_assoc]
      rfl
    · intro n hn
      rw [e3 n hn, fsLookup_fsWrite_ne _ _ _ _ hn]

theorem linesOf_hitsConcat (hits : List (String × String))
    (hh : ∀ p ∈ hits, '\n' ∉ p.1.data ∧ '\n' ∉ p.2.data ∧ p.2.data.getLast? ≠ some '\r') :
    linesOf (hitsConcat hits) = hits.map (fun p => hitEntry p.1 p.2) := by
  induction hits with
  | nil => rfl
  | cons p ps ih =>
    obtain ⟨h1, h2, h3⟩ := hh p (List.mem_cons_self p ps)
    have hrest : ∀ q ∈ ps, '\n' ∉ q.1.data ∧ '\n' ∉ q.2.data ∧ q.2.data.getLast? ≠ some '\r' :=
      fun q hq => hh q (List.mem_cons_of_mem _ hq)
    have : hitsConcat (p :: ps) = hitEntry p.1 p.2 ++ "\n" ++ hitsConcat ps := rfl
    rw [this, linesOf_cons _ _ (nl_not_mem_hitEntry _ _ h1 h2) (hitEntry_last_ne _ _ h3),
      ih hrest, List.map_cons]

/-! ## Shape of the derived identifier -/

theorem sha256Bytes_length (m : List Nat) : (sha256Bytes m).length = 32 := by
  simp [sha256Bytes, digestBytes, bytes4BE]

theorem concatMap_hexOfByte_length (bs : List Nat) :
    (concatMap hexOfByte bs).length = 2 * bs.length := by
  induction bs with
  | nil => rfl
  | cons b bs ih =>
    simp [concatMap, hexOfByte, ih]
    omega

theorem hexDigit_mem (n : Nat) : hexDigit n ∈ hexChars := by
  unfold hexDigit
  rcases Nat.lt_or_ge n 16 with h | h
  · interval_cases n <;> decide
  · rw [List.getD_eq_default]
    · decide
    · have e : hexChars.length = 16 := rfl
      omega

theorem mem_concatMap {f : α → List β} {b : β} :
    ∀ {l : List α}, b ∈ concatMap f l → ∃ a ∈ l, b ∈ f a := by
  intro l
  induction l with
  | nil => intro h; exact absurd h (by simp [concatMap])
  | cons a as ih =>
    intro h
    rcases List.mem_append.1 h with h | h
    · exact ⟨a, List.mem_cons_self a as, h⟩
    · obtain ⟨a2, ha2, hb⟩ := ih h
      exact ⟨a2, List.mem_cons_of_mem _ ha2, hb⟩

theorem derive_data (d : String) :
    (derive d).data = concatMap hexOfByte (sha256Bytes (utf8Bytes d)) := rfl

theorem derive_length (d : String) : (derive d).length = 64 := by
  show (derive d).data.length = 64
  rw [derive_data, concatMap_hexOfByte_length, sha256Bytes_length]

theorem derive_chars_hex (d : String) : ∀ c ∈ (derive d).data, c ∈ hexChars := by
  intro c hc
  rw [derive_data] at hc
  obtain ⟨b, _, hb⟩ := mem_concatMap hc
  simp only [hexOfByte, List.mem_cons, List.not_mem_nil, or_false] at hb
  rcases hb with h | h <;> exact h ▸ hexDigit_mem _

set_option maxRecDepth 40000

/-! ## Validation of the hash model against the standard SHA-256 test vectors -/

theorem sha256_vector_empty :
    derive "" = "e3b0c44298fc1c149afbf4c8996fb92427ae41e4649b934ca495991b7852b855" := by
  decide

theorem sha256_vector_abc :
    derive "abc" = "ba7816bf8f01cfea414140de5dae2223b00361a396177a9cb410ff61f20015ad" := by
  decide

/-! ## The claims -/

/-- C4: `derive` is a pure, deterministic function of the destination
whose output is the 64-character lowercase-hexadecimal encoding of the
SHA-256 digest of the destination's raw (UTF-8) bytes.  Determinism is
the first conjunct; the second gives, for every destination, the
definitional factoring through SHA-256 of the raw bytes, the
64-character length, and that every output character is a lowercase hex
digit (a member of `hexChars = ['0'..'9','a'..'f']`).  That the
`sha256Bytes` model is genuinely SHA-256 is checked against the FIPS
180-4 test vectors in `sha256_vector_empty` and `sha256_vector_abc`. -/
theorem C4_derive_deterministic_sha256_hex :
    (∀ d1 d2 : String, d1 = d2 → derive d1 = derive d2) ∧
    ∀ d : String,
      derive d = hexEncodeToString (sha256Bytes (utf8Bytes d)) ∧
      (derive d).length = 64 ∧
      ∀ c ∈ (derive d).data, c ∈ hexChars :=
  ⟨fun _ _ h => h ▸ rfl, fun d => ⟨rfl, derive_length d, derive_chars_hex d⟩⟩

/-- Witness for C4 at the spec's round-trip input: the determinism
hypothesis discharged at a concrete destination, and the 64-character
lowercase-hex output evaluated there. -/
theorem C4_derive_deterministic_sha256_hex_witness :
    derive "https://example.com/a" = derive "https://example.com/a" ∧
    (derive "https://example.com/a").length = 64 :=
  ⟨C4_derive_deterministic_sha256_hex.1 "https://example.com/a" "https://example.com/a" rfl,
   (C4_derive_deterministic_sha256_hex.2 "https://example.com/a").2.1⟩

/-- C6: on an identifier whose storage unit does not exist, both
`visit` (`goHandler`/`collectHandler`) and `getAnalytics`
(`analyticsHandler`) fail with not-found, returning neither a
destination nor a history: `os.Open` in `loadLink` fails first in both
paths. -/
theorem C6_unregistered_not_found (fs : FS) (h ts ua : String)
    (hnone : fsLookup fs (fileName h) = none) :
    visit fs h ts ua = .error .notFound ∧ getAnalytics fs h = .error .notFound := by
  constructor <;> simp [visit, getAnalytics, loadLink, hnone]

/-- Witness for C6: the empty filesystem has no unit for `"deadbeef"`,
and both operations fail with not-found there. -/
theorem C6_unregistered_not_found_witness :
    visit [] "deadbeef" "2025/01/01 10:00:00" "curl/8.0" = .error .notFound ∧
    getAnalytics [] "deadbeef" = .error .notFound :=
  C6_unregistered_not_found [] "deadbeef" "2025/01/01 10:00:00" "curl/8.0" rfl

/-- C7: `gotHit` opens the storage file with `O_APPEND|O_WRONLY` and no
`O_CREATE`, so on an identifier with no storage unit it fails with
not-found; the error branch returns no new filesystem state — the
model's `fsAppend` only produces a state through `fsWrite` on the
success path — so nothing is persisted and in particular no unit is
created. -/
theorem C7_append_missing_unit_fails (fs : FS) (h ts ua : String)
    (hnone : fsLookup fs (fileName h) = none) :
    gotHit fs h ts ua = .error .notFound := by
  simp [gotHit, fsAppend, hnone]

/-- Witness for C7 on the empty filesystem. -/
theorem C7_append_missing_unit_fails_witness :
    gotHit [] "deadbeef" "2025/01/01 10:00:00" "curl/8.0" = .error .notFound :=
  C7_append_missing_unit_fails [] "deadbeef" "2025/01/01 10:00:00" "curl/8.0" rfl

/-- C10: registration of the empty destination succeeds with no input
validation — `registerDestination` is total by its very type (there is
no `InvalidInput` anywhere in the source): the identifier is the
SHA-256 digest of the empty byte string, and the created storage unit's
contents are a single empty first line. -/
theorem C10_empty_destination_accepted :
    (registerDestination [] "").1 =
      "e3b0c44298fc1c149afbf4c8996fb92427ae41e4649b934ca495991b7852b855" ∧
    utf8Bytes "" = [] ∧
    (registerDestination [] "").1 = hexEncodeToString (sha256Bytes []) ∧
    fsLookup (registerDestination [] "").2 (fileName (registerDestination [] "").1) =
      some "\n" ∧
    linesOf "\n" = [""] := by
  refine ⟨by decide, rfl, rfl, by decide, by decide⟩

/-- C9: for the destination `"a\nb"` (an embedded newline), create
followed by load returns a Link whose destination is only `"a"` — the
portion before the first newline — because `loadLink` scans a single
line of the storage unit. -/
theorem C9_load_truncates_at_newline :
    ∃ l, loadLink (registerDestination [] "a\nb").2 (registerDestination [] "a\nb").1 =
        .ok l ∧ l.Destination = "a" ∧ l.Destination ≠ "a\nb" := by
  refine ⟨⟨"a", (newLink "a\nb").Hash⟩, ?_, rfl, by decide⟩
  rfl

/-- C1 (code bug): re-registering the same destination is NOT
idempotent in the code — `Link.save` uses `os.WriteFile`, which
truncates.  Concretely: register `"https://example.com/a"`, record one
hit, register the same destination again; the storage unit afterwards
holds only the destination line (`.ok (dest ++ "\n")` from `loadHits`)
and the previously persisted hit history is gone
(`hitRecords = []`).  The spec's idempotence sentence requires the hit
history to be preserved, so the code contradicts it — and the spec
itself flags the observed truncation as a defect to fix. -/
theorem C1_reregister_truncates_history :
    ∃ fs2,
      gotHit (registerDestination [] "https://example.com/a").2
        (registerDestination [] "https://example.com/a").1
        "2025/01/01 10:00:00" "curl/8.0" = .ok fs2 ∧
      hitRecords ("https://example.com/a" ++ "\n" ++
        hitLine "2025/01/01 10:00:00" "curl/8.0") =
        [hitEntry "2025/01/01 10:00:00" "curl/8.0"] ∧
      fsLookup fs2 (fileName (registerDestination [] "https://example.com/a").1) =
        some ("https://example.com/a" ++ "\n" ++
          hitLine "2025/01/01 10:00:00" "curl/8.0") ∧
      loadHits (registerDestination fs2 "https://example.com/a").2
        (registerDestination fs2 "https://example.com/a").1 =
        .ok ("https://example.com/a" ++ "\n") ∧
      hitRecords ("https://example.com/a" ++ "\n") = [] := by
  refine ⟨_, rfl, by decide, by decide, ?_, by decide⟩
  rfl

/-- C3 (amended): for every destination `d` that contains no newline
and does not end in a carriage return, `registerDestination d` followed
by `getAnalytics` on the returned identifier yields a destination equal
to `d` and zero hit records.  (The newline/CR proviso is forced by the
counterexample `C3_newline_destination_cex`: `loadLink`'s line scan
cannot return a destination containing `'\n'`, and strips a trailing
`'\r'`.) -/
theorem C3_register_then_analytics (fs : FS) (d : String)
    (hd : '\n' ∉ d.data) (hdr : d.data.getLast? ≠ some '\r') :
    ∃ la, getAnalytics (registerDestination fs d).2 (registerDestination fs d).1 = .ok la ∧
      la.GoTo.Destination = d ∧ la.Analytics = d ++ "\n" ∧ hitRecords la.Analytics = [] := by
  have hc : fsLookup (registerDestination fs d).2 (fileName (registerDestination fs d).1) =
      some (d ++ "\n") := fsLookup_fsWrite_self fs (fileName (newLink d).Hash) (d ++ "\n")
  refine ⟨⟨⟨(linesOf (d ++ "\n")).headD "", (registerDestination fs d).1⟩, d ++ "\n"⟩,
    ?_, ?_, rfl, ?_⟩
  · simp [getAnalytics, loadLink, loadHits, hc]
  · show (linesOf (d ++ "\n")).headD "" = d
    rw [linesOf_single d hd hdr]
    rfl
  · show (linesOf (d ++ "\n")).tail = []
    rw [linesOf_single d hd hdr]
    rfl

/-- Witness for C3 at the spec's round-trip destination. -/
theorem C3_register_then_analytics_witness :
    ('\n' ∉ ("https://example.com/a" : String).data) ∧
    ∃ la, getAnalytics (registerDestination [] "https://example.com/a").2
        (registerDestination [] "https://example.com/a").1 = .ok la ∧
      la.GoTo.Destination = "https://example.com/a" ∧
      la.Analytics = "https://example.com/a" ++ "\n" ∧ hitRecords la.Analytics = [] :=
  ⟨by decide, C3_register_then_analytics [] "https://example.com/a" (by decide) (by decide)⟩

/-- Counterexample to C3 as stated: for the destination `"a\nb"`,
register-then-getAnalytics returns the destination `"a"`, not `"a\nb"`
— the claim's universally quantified destination equality fails on any
destination with an embedded newline. -/
theorem C3_newline_destination_cex :
    ∃ la, getAnalytics (registerDestination [] "a\nb").2 (registerDestination [] "a\nb").1 =
        .ok la ∧ la.GoTo.Destination = "a" ∧ la.GoTo.Destination ≠ "a\nb" := by
  refine ⟨⟨⟨"a", (newLink "a\nb").Hash⟩, "a\nb" ++ "\n"⟩, ?_, rfl, by decide⟩
  rfl

/-- C2 (amended): for every destination without a newline, and every
sequence of timestamp/user-agent pairs where the timestamps and
user-agents contain no newline and the user-agents do not end in a
carriage return, N sequential `visit`s after registration make
`getAnalytics` return exactly N hit records, in call order, the i-th
being the line `"hit: " ++ ts_i ++ " " ++ ua_i` — which contains the
i-th user-agent.  (The newline/CR proviso is forced by
`C2_newline_signature_cex`: a signature with an embedded newline is
persisted across two lines and is counted as two records.) -/
theorem C2_visits_recorded (fs : FS) (d : String) (hits : List (String × String))
    (hd : '\n' ∉ d.data)
    (hh : ∀ p ∈ hits, '\n' ∉ p.1.data ∧ '\n' ∉ p.2.data ∧ p.2.data.getLast? ≠ some '\r') :
    ∃ fs2, visitMany (registerDestination fs d).2 (registerDestination fs d).1 hits = .ok fs2 ∧
      ∃ la, getAnalytics fs2 (registerDestination fs d).1 = .ok la ∧
        hitRecords la.Analytics = hits.map (fun p => hitEntry p.1 p.2) ∧
        (hitRecords la.Analytics).length = hits.length := by
  obtain ⟨fs2, e1, e2, _⟩ := visitMany_ok hits (registerDestination fs d).2
    (registerDestination fs d).1 (d ++ "\n")
    (fsLookup_fsWrite_self fs (fileName (newLink d).Hash) (d ++ "\n"))
  have hrec : hitRecords (d ++ "\n" ++ hitsConcat hits) =
      hits.map (fun p => hitEntry p.1 p.2) := by
    show (linesOf (d ++ "\n" ++ hitsConcat hits)).tail = _
    rw [linesOf_cons_chomp _ _ hd, List.tail_cons, linesOf_hitsConcat hits hh]
  have hga : getAnalytics fs2 (registerDestination fs d).1 =
      .ok ⟨⟨(linesOf (d ++ "\n" ++ hitsConcat hits)).headD "", (registerDestination fs d).1⟩,
        d ++ "\n" ++ hitsConcat hits⟩ := by
    simp [getAnalytics, loadLink, loadHits, e2]
  exact ⟨fs2, e1, ⟨_, hga, hrec, by rw [hrec, List.length_map]⟩⟩

/-- Witness for C2: two visits on a freshly registered destination,
with concrete timestamps and user-agents, produce exactly those two hit
records in order. -/
theorem C2_visits_recorded_witness :
    ∃ fs2, visitMany (registerDestination [] "https://example.com/a").2
        (registerDestination [] "https://example.com/a").1
        [("2025/01/01 10:00:00", "curl/8.0"), ("2025/01/01 10:00:01", "Mozilla/5.0")] =
        .ok fs2 ∧
      ∃ la, getAnalytics fs2 (registerDestination [] "https://example.com/a").1 = .ok la ∧
        hitRecords la.Analytics =
          [hitEntry "2025/01/01 10:00:00" "curl/8.0",
           hitEntry "2025/01/01 10:00:01" "Mozilla/5.0"] ∧
        (hitRecords la.Analytics).length = 2 :=
  C2_visits_recorded [] "https://example.com/a"
    [("2025/01/01 10:00:00", "curl/8.0"), ("2025/01/01 10:00:01", "Mozilla/5.0")]
    (by decide) (by decide)

/-- Counterexample to C2 as stated: one single visit whose client
signature `"a\nb"` embeds a newline yields two hit records, not one —
the signature is written across two physical lines. -/
theorem C2_newline_signature_cex :
    ∃ fs2, visitMany (registerDestination [] "u").2 (registerDestination [] "u").1
        [("2025/01/01 10:00:00", "a\nb")] = .ok fs2 ∧
      ∃ la, getAnalytics fs2 (registerDestination [] "u").1 = .ok la ∧
        hitRecords la.Analytics = ["hit: 2025/01/01 10:00:00 a", "b"] ∧
        (hitRecords la.Analytics).length ≠ 1 := by
  refine ⟨_, rfl, ⟨⟨⟨"u", (newLink "u").Hash⟩,
    "u" ++ "\n" ++ hitLine "2025/01/01 10:00:00" "a\nb"⟩, ?_, by decide, by decide⟩⟩
  rfl

/-- C5 (amended): a successful append is strictly additive.  Whenever
the storage unit for `h` holds `c` (newline-terminated, as every
reachable unit is) and the timestamp and signature contain no newline
(signature not ending in CR), `gotHit` leaves every previously
persisted byte of the unit unchanged and in order — the new contents
are literally `c ++ hitLine ts ua` — adds exactly one new
self-contained line `"hit: " ++ ts ++ " " ++ ua` at the end, and
touches no other file.  (The no-newline proviso is forced by
`C5_newline_signature_cex`: a signature with an embedded newline adds
two lines.) -/
theorem C5_append_strictly_additive (fs : FS) (h c ts ua : String)
    (hc : fsLookup fs (fileName h) = some c)
    (hcend : c.data.getLast? = some '\n')
    (hts : '\n' ∉ ts.data) (hua : '\n' ∉ ua.data)
    (huar : ua.data.getLast? ≠ some '\r') :
    gotHit fs h ts ua = .ok (fsWrite fs (fileName h) (c ++ hitLine ts ua)) ∧
    fsLookup (fsWrite fs (fileName h) (c ++ hitLine ts ua)) (fileName h) =
      some (c ++ hitLine ts ua) ∧
    linesOf (c ++ hitLine ts ua) = linesOf c ++ [hitEntry ts ua] ∧
    ∀ n, n ≠ fileName h →
      fsLookup (fsWrite fs (fileName h) (c ++ hitLine ts ua)) n = fsLookup fs n := by
  refine ⟨by simp [gotHit, fsAppend, hc], fsLookup_fsWrite_self .., ?_,
    fun n hn => fsLookup_fsWrite_ne _ _ _ _ hn⟩
  rw [linesOf_append_of_last_nl _ _ hcend,
    show hitLine ts ua = hitEntry ts ua ++ "\n" from rfl,
    linesOf_single _ (nl_not_mem_hitEntry _ _ hts hua) (hitEntry_last_ne _ _ huar)]

/-- Witness for C5 on a concrete one-line storage unit. -/
theorem C5_append_strictly_additive_witness :
    gotHit [("h.linkanalytics", "d\n")] "h" "2025/01/01 10:00:00" "curl/8.0" =
      .ok (fsWrite [("h.linkanalytics", "d\n")] (fileName "h")
        ("d\n" ++ hitLine "2025/01/01 10:00:00" "curl/8.0")) ∧
    linesOf ("d\n" ++ hitLine "2025/01/01 10:00:00" "curl/8.0") =
      linesOf "d\n" ++ [hitEntry "2025/01/01 10:00:00" "curl/8.0"] :=
  ⟨(C5_append_strictly_additive [("h.linkanalytics", "d\n")] "h" "d\n"
      "2025/01/01 10:00:00" "curl/8.0" (by decide) (by decide) (by decide) (by decide)
      (by decide)).1,
   (C5_append_strictly_additive [("h.linkanalytics", "d\n")] "h" "d\n"
      "2025/01/01 10:00:00" "curl/8.0" (by decide) (by decide) (by decide) (by decide)
      (by decide)).2.2.1⟩

/-- Counterexample to C5 as stated: appending a hit whose client
signature `"x\ny"` embeds a newline adds two lines to the registered
unit, not exactly one — the unit goes from one line to three. -/
theorem C5_newline_signature_cex :
    ∃ fs2, gotHit (registerDestination [] "u").2 (registerDestination [] "u").1
        "2025/01/01 10:00:00" "x\ny" = .ok fs2 ∧
      fsLookup fs2 (fileName (registerDestination [] "u").1) =
        some ("u" ++ "\n" ++ hitLine "2025/01/01 10:00:00" "x\ny") ∧
      (linesOf ("u" ++ "\n" ++ hitLine "2025/01/01 10:00:00" "x\ny")).length = 3 ∧
      (linesOf ("u" ++ "\n")).length = 1 := by
  refine ⟨_, rfl, by decide, by decide, by decide⟩

/-- C8 (amended): the persisted state of a registered Link with
newline-free destination, timestamps and signatures is exactly one
file, named `identifier ++ ".linkanalytics"` (the identifier being
`derive d`), whose first scanned line is the destination and whose
every subsequent line is one hit record `"hit: " ++ ts ++ " " ++ ua`;
no other file is touched.  (The proviso on the destination is forced
by `C8_newline_destination_cex`.) -/
theorem C8_storage_layout (fs : FS) (d : String) (hits : List (String × String))
    (hd : '\n' ∉ d.data) (hdr : d.data.getLast? ≠ some '\r')
    (hh : ∀ p ∈ hits, '\n' ∉ p.1.data ∧ '\n' ∉ p.2.data ∧ p.2.data.getLast? ≠ some '\r') :
    (registerDestination fs d).1 = derive d ∧
    ∃ fs2, visitMany (registerDestination fs d).2 (registerDestination fs d).1 hits =
        .ok fs2 ∧
      fsLookup fs2 (fileName (derive d)) = some (d ++ "\n" ++ hitsConcat hits) ∧
      linesOf (d ++ "\n" ++ hitsConcat hits) = d :: hits.map (fun p => hitEntry p.1 p.2) ∧
      ∀ n, n ≠ fileName (derive d) → fsLookup fs2 n = fsLookup fs n := by
  obtain ⟨fs2, e1, e2, e3⟩ := visitMany_ok hits (registerDestination fs d).2
    (registerDestination fs d).1 (d ++ "\n")
    (fsLookup_fsWrite_self fs (fileName (newLink d).Hash) (d ++ "\n"))
  refine ⟨rfl, fs2, e1, e2, ?_, ?_⟩
  · rw [linesOf_cons _ _ hd hdr, linesOf_hitsConcat hits hh]
  · intro n hn
    rw [e3 n hn]
    exact fsLookup_fsWrite_ne fs (fileName (derive d)) (d ++ "\n") n hn

/-- Witness for C8: one registration and one concrete visit lay the
file out as destination line plus one hit line. -/
theorem C8_storage_layout_witness :
    (registerDestination [] "https://example.com/a").1 = derive "https://example.com/a" ∧
    ∃ fs2, visitMany (registerDestination [] "https://example.com/a").2
        (registerDestination [] "https://example.com/a").1
        [("2025/01/01 10:00:00", "curl/8.0")] = .ok fs2 ∧
      fsLookup fs2 (fileName (derive "https://example.com/a")) =
        some ("https://example.com/a" ++ "\n" ++
          hitsConcat [("2025/01/01 10:00:00", "curl/8.0")]) ∧
      linesOf ("https://example.com/a" ++ "\n" ++
          hitsConcat [("2025/01/01 10:00:00", "curl/8.0")]) =
        "https://example.com/a" ::
          [("2025/01/01 10:00:00", "curl/8.0")].map (fun p => hitEntry p.1 p.2) ∧
      ∀ n, n ≠ fileName (derive "https://example.com/a") → fsLookup fs2 n = fsLookup [] n :=
  C8_storage_layout [] "https://example.com/a" [("2025/01/01 10:00:00", "curl/8.0")]
    (by decide) (by decide) (by decide)

/-- Counterexample to C8 as stated: for the registered destination
`"a\nb"` the storage file's first line is `"a"`, not the Link's
destination — a destination with an embedded newline breaks the
"first line = destination" layout. -/
theorem C8_newline_destination_cex :
    fsLookup (registerDestination [] "a\nb").2 (fileName (registerDestination [] "a\nb").1) =
      some ("a\nb" ++ "\n") ∧
    (linesOf ("a\nb" ++ "\n")).headD "" = "a" ∧
    (linesOf ("a\nb" ++ "\n")).headD "" ≠ "a\nb" := by
  refine ⟨by decide, by decide, by decide⟩
